import Mathlib

/-!
Verification of the cycle-counting measurement kernel (rust-performance-timing).

The Rust source (src/src/lib.rs) is shallowly embedded here:
* `u64` values are modelled as `Nat`; where the Rust arithmetic can overflow or
  underflow, operations return `Option` (`none` models the panic that the
  checked arithmetic of the default test/debug profile raises), and domain
  bounds `< 2^64` appear as explicit hypotheses;
* `f32`/`f64` expressions are modelled over `ℚ` (exact arithmetic on the same
  expression tree; rounding error of the binary formats is not modelled), and
  the IEEE special results needed by the claims (NaN, infinity) are modelled by
  the sum type `F` below;
* timestamp reads and the wall clock are nondeterministic inputs, so functions
  that read them take those readings as explicit arguments.
-/

/-- The literal mask `0x700FFFFFFFF` from the loop body of `const_cycle_loop`. -/
def loopMask : Nat := 0x700FFFFFFFF

/-- The `while cycles > 0 { cycles = cycles - 1; cycles = cycles & 0x700FFFFFFFF }`
loop of `const_cycle_loop`, returning the final counter value.  Termination is
proved from `(n - 1) &&& loopMask ≤ n - 1 < n`, exactly the reason the Rust
loop terminates. -/
def cycleLoop (n : Nat) : Nat :=
  if h : n = 0 then n
  else cycleLoop ((n - 1) &&& loopMask)
termination_by n
decreasing_by
  exact lt_of_le_of_lt Nat.and_le_left (Nat.sub_lt (Nat.pos_of_ne_zero h) one_pos)

/-- `const_cycle_loop` from src/src/lib.rs lines 13-24.
`assert_eq!(cycles % 4, 0)` and `assert!(cycles < 0xFFFFFFFF)` halt the program
when violated; `none` models that halt.  On the valid path the code halves the
counter and runs the decrement-and-mask loop. -/
def const_cycle_loop (cycles : Nat) : Option Nat :=
  if cycles % 4 = 0 then
    if cycles < 0xFFFFFFFF then
      some (cycleLoop (cycles / 2))
    else none
  else none

theorem loopMask_and_eq (n : Nat) (h : n < 2 ^ 32) : n &&& loopMask = n := by
  apply Nat.eq_of_testBit_eq
  intro i
  rw [Nat.testBit_land]
  by_cases hi : i < 32
  · have h1 : loopMask % 2 ^ 32 = 2 ^ 32 - 1 := by decide
    have h2 := Nat.testBit_mod_two_pow loopMask 32 i
    rw [h1, Nat.testBit_two_pow_sub_one] at h2
    have hm : loopMask.testBit i = true := by
      simpa [hi] using h2.symm
    rw [hm, Bool.and_true]
  · have hn : n.testBit i = false :=
      Nat.testBit_lt_two_pow
        (lt_of_lt_of_le h (Nat.pow_le_pow_right (by norm_num) (le_of_not_lt hi)))
    simp [hn]

theorem cycleLoop_eq_zero (n : Nat) : n < 2 ^ 32 → cycleLoop n = 0 := by
  induction n using Nat.strong_induction_on with
  | _ n ih =>
    intro h
    rw [cycleLoop]
    split
    · assumption
    · rename_i hne
      have hle : n - 1 < 2 ^ 32 := lt_of_le_of_lt (Nat.sub_le n 1) h
      rw [loopMask_and_eq _ hle]
      exact ih (n - 1) (Nat.sub_lt (Nat.pos_of_ne_zero hne) one_pos) hle

theorem const_cycle_loop_valid_some (cycles : Nat) (h4 : cycles % 4 = 0)
    (hlt : cycles < 2 ^ 32 - 1) :
    const_cycle_loop cycles = some (cycleLoop (cycles / 2)) := by
  unfold const_cycle_loop
  rw [if_pos h4, if_pos (by omega : cycles < 0xFFFFFFFF)]

theorem const_cycle_loop_valid_zero (cycles : Nat) (h4 : cycles % 4 = 0)
    (hlt : cycles < 2 ^ 32 - 1) :
    const_cycle_loop cycles = some 0 := by
  rw [const_cycle_loop_valid_some cycles h4 hlt, cycleLoop_eq_zero (cycles / 2) (by omega)]

/-- C2: for every `u64` argument `cycles`, `const_cycle_loop cycles` takes the
fatal `InvalidArgument` branch (models as `none`, no value returned) exactly
when `cycles` is not divisible by 4 or `cycles ≥ 2^32 - 1`; on arguments
divisible by 4 and strictly below `2^32 - 1` the failure branch is not taken. -/
theorem const_cycle_loop_invalid_argument (cycles : Nat) (hu : cycles < 2 ^ 64) :
    const_cycle_loop cycles = none ↔ (cycles % 4 ≠ 0 ∨ 2 ^ 32 - 1 ≤ cycles) := by
  unfold const_cycle_loop
  by_cases h4 : cycles % 4 = 0
  · by_cases hlt : cycles < 0xFFFFFFFF
    · rw [if_pos h4, if_pos hlt]
      simp only [reduceCtorEq, false_iff]
      push_neg
      exact ⟨h4, by omega⟩
    · rw [if_pos h4, if_neg hlt]
      simp only [true_iff]
      right
      omega
  · rw [if_neg h4]
    simp only [true_iff]
    left
    exact h4

theorem const_cycle_loop_invalid_argument_witness :
    (5 : Nat) < 2 ^ 64 ∧
      (const_cycle_loop 5 = none ↔ ((5 : Nat) % 4 ≠ 0 ∨ 2 ^ 32 - 1 ≤ 5)) :=
  ⟨by norm_num, const_cycle_loop_invalid_argument 5 (by norm_num)⟩

/-- C3: for every `u64` `cycles` divisible by 4 and strictly below `2^32 - 1`,
`const_cycle_loop cycles` terminates with a value (`some _`), and that value is
the deterministic function `cycleLoop (cycles / 2)` of `cycles` alone, so two
invocations with the same argument return the same value.  (Totality of the
Lean function is the termination proof.) -/
theorem const_cycle_loop_terminates_deterministic (cycles : Nat)
    (h4 : cycles % 4 = 0) (hlt : cycles < 2 ^ 32 - 1) :
    const_cycle_loop cycles = some (cycleLoop (cycles / 2)) :=
  const_cycle_loop_valid_some cycles h4 hlt

theorem const_cycle_loop_terminates_deterministic_witness :
    (8 : Nat) % 4 = 0 ∧ (8 : Nat) < 2 ^ 32 - 1 ∧
      const_cycle_loop 8 = some (cycleLoop (8 / 2)) :=
  ⟨by norm_num, by norm_num,
    const_cycle_loop_terminates_deterministic 8 (by norm_num) (by norm_num)⟩

/-- `FreqInfo` from src/src/lib.rs: current core frequency and the
timestamp-counter scaling factor.  The Rust fields are `f32`; they are modelled
over `ℚ`. -/
structure FreqInfo where
  frequency : ℚ
  tsc_scaling : ℚ
deriving DecidableEq

/-- `CPUInfo::get_frequency_hz` from src/src/lib.rs lines 42-57.  The two
timestamp reads and the wall-clock elapsed time are nondeterministic inputs,
passed as arguments `elapsed_ns` (`start.elapsed().as_nanos()`), `ts_s`, `ts_e`.
`(const_cycle_loop tot_cycles).getD 0` is the value `r` of the Rust call, which
cannot take the assert branch since `tot_cycles = 1000000` is valid.
`ts_e - ts_s` is truncated subtraction, agreeing with the `u64` difference
whenever `ts_s ≤ ts_e` (the counter is monotone). -/
def get_frequency_hz (elapsed_ns ts_s ts_e : Nat) : FreqInfo :=
  let tot_cycles : Nat := 1000000
  let r : Nat := (const_cycle_loop tot_cycles).getD 0
  let time_ns : Nat := elapsed_ns + r
  let freq : ℚ := (10 ^ 9 * (tot_cycles : ℚ)) / (time_ns : ℚ)
  let freq2 : ℚ := (freq / 50000000) * 50000000
  { frequency := freq2,
    tsc_scaling := (tot_cycles : ℚ) / ((ts_e - ts_s : Nat) : ℚ) }

/-- `CPUInfo::get_frequency_ghz` from src/src/lib.rs lines 61-65: one call to
`get_frequency_hz` on the same measurement inputs, then `frequency /= 1e9`. -/
def get_frequency_ghz (elapsed_ns ts_s ts_e : Nat) : FreqInfo :=
  let r := get_frequency_hz elapsed_ns ts_s ts_e
  { r with frequency := r.frequency / 10 ^ 9 }

theorem get_frequency_hz_freq (elapsed_ns ts_s ts_e : Nat) :
    (get_frequency_hz elapsed_ns ts_s ts_e).frequency =
      ((10 ^ 9 * 1000000 : ℚ) / (elapsed_ns : ℚ) / 50000000) * 50000000 := by
  have hz : const_cycle_loop 1000000 = some 0 :=
    const_cycle_loop_valid_zero 1000000 (by norm_num) (by norm_num)
  simp [get_frequency_hz, hz]

/-- C1 (refuted, code bug): at a concrete measurement input (elapsed time
300000 ns, any timestamps) the raw frequency value is 10^10/3 Hz, and the
code's `freq = (freq / 50_000_000f32) * 50_000_000f32` leaves it at 10^10/3,
which is not an integer multiple of 50000000: the returned `frequency` is NOT
the raw value rounded to the nearest multiple of 50 MHz (that would be
3350000000).  Dividing and multiplying by the same constant is the identity,
not a rounding step. -/
theorem get_frequency_hz_not_rounded_to_50MHz :
    (get_frequency_hz 300000 0 1000000).frequency = 10000000000 / 3 ∧
      ¬ ∃ k : ℤ, (get_frequency_hz 300000 0 1000000).frequency = (k : ℚ) * 50000000 := by
  have h1 : (get_frequency_hz 300000 0 1000000).frequency = 10000000000 / 3 := by
    rw [get_frequency_hz_freq, div_mul_cancel₀ _ (by norm_num : (50000000 : ℚ) ≠ 0)]
    norm_num
  refine ⟨h1, ?_⟩
  rintro ⟨k, hk⟩
  rw [h1] at hk
  have h2 : (k : ℚ) * 150000000 = 10000000000 := by
    field_simp at hk
    linarith
  have h3 : k * 150000000 = 10000000000 := by exact_mod_cast h2
  omega

/-- C8: for every `u64` `cycles` divisible by 4 and strictly below `2^32 - 1`,
`const_cycle_loop cycles` returns exactly 0 (the mask `0x700FFFFFFFF` preserves
every value below `2^32`, so the halved counter is decremented to zero), and
consequently the accumulator value added as the micro-correction term in
`get_frequency_hz` is 0: `time_ns` equals the elapsed nanoseconds plus zero. -/
theorem const_cycle_loop_zero_correction (cycles elapsed_ns ts_s ts_e : Nat)
    (h4 : cycles % 4 = 0) (hlt : cycles < 2 ^ 32 - 1) :
    const_cycle_loop cycles = some 0 ∧
      (get_frequency_hz elapsed_ns ts_s ts_e).frequency =
        ((10 ^ 9 * 1000000 : ℚ) / ((elapsed_ns + 0 : Nat) : ℚ) / 50000000) * 50000000 :=
  ⟨const_cycle_loop_valid_zero cycles h4 hlt, by rw [get_frequency_hz_freq]; norm_num⟩

theorem const_cycle_loop_zero_correction_witness :
    (8 : Nat) % 4 = 0 ∧ (8 : Nat) < 2 ^ 32 - 1 ∧
      (const_cycle_loop 8 = some 0 ∧
        (get_frequency_hz 300000 0 1000000).frequency =
          ((10 ^ 9 * 1000000 : ℚ) / ((300000 + 0 : Nat) : ℚ) / 50000000) * 50000000) :=
  ⟨by norm_num, by norm_num,
    const_cycle_loop_zero_correction 8 300000 0 1000000 (by norm_num) (by norm_num)⟩

/-- C9: `get_frequency_ghz` is a pure unit conversion of the single
`get_frequency_hz` result on the same measurement inputs: `tsc_scaling` is
unchanged and `frequency` is the Hz frequency divided by 10^9 (equivalently,
multiplying it back by 10^9 recovers the Hz value); no second, independent
calibration run is performed. -/
theorem get_frequency_ghz_unit_conversion (elapsed_ns ts_s ts_e : Nat) :
    (get_frequency_ghz elapsed_ns ts_s ts_e).tsc_scaling =
        (get_frequency_hz elapsed_ns ts_s ts_e).tsc_scaling ∧
      (get_frequency_ghz elapsed_ns ts_s ts_e).frequency * 10 ^ 9 =
        (get_frequency_hz elapsed_ns ts_s ts_e).frequency :=
  ⟨rfl, div_mul_cancel₀ _ (by norm_num)⟩

/-- Model of the IEEE `f32` results relevant to the claims: a value is NaN, a
signed infinity, or a finite value (held exactly as a rational). -/
inductive F where
  | nan : F
  | inf : Bool → F
  | finite : ℚ → F
deriving DecidableEq

/-- IEEE-754 division restricted to finite operands: `0/0` is NaN, `x/0` for
`x ≠ 0` a signed infinity, otherwise the (exactly modelled) quotient. -/
def F.div (a b : ℚ) : F :=
  if b = 0 then (if a = 0 then F.nan else F.inf (decide (a < 0))) else F.finite (a / b)

/-- `MeasureRegion` from src/src/lib.rs lines 91-96 (`num_samples` and
`sum_samples` are `u64`, modelled as `Nat` with the `< 2^64` bound enforced in
`record_sample`). -/
structure MeasureRegion where
  region_name : String
  dump_on_drop : Bool
  num_samples : Nat
  sum_samples : Nat
deriving DecidableEq

def MeasureRegion.new_named (region_name : String) (dump_on_drop : Bool) : MeasureRegion :=
  { region_name := region_name, dump_on_drop := dump_on_drop,
    num_samples := 0, sum_samples := 0 }

def MeasureRegion.new : MeasureRegion :=
  { region_name := "default_name", dump_on_drop := false,
    num_samples := 0, sum_samples := 0 }

/-- `MeasureRegion::get_average_sample`: `sum_samples as f32 / num_samples as f32`
(an `f32` division, hence NaN on 0/0). -/
def MeasureRegion.get_average_sample (r : MeasureRegion) : F :=
  F.div (r.sum_samples : ℚ) (r.num_samples : ℚ)

/-- `MeasureRegion::get_total_time`: returns `sum_samples`. -/
def MeasureRegion.get_total_time (r : MeasureRegion) : Nat :=
  r.sum_samples

/-- `MeasureRegion::record_sample`: `num_samples += 1; sum_samples += sample`.
Both are `u64` additions; `none` models the overflow panic of the checked
arithmetic of the default test profile. -/
def MeasureRegion.record_sample (r : MeasureRegion) (sample : Nat) : Option MeasureRegion :=
  if r.num_samples + 1 < 2 ^ 64 ∧ r.sum_samples + sample < 2 ^ 64 then
    some { r with num_samples := r.num_samples + 1,
                  sum_samples := r.sum_samples + sample }
  else none

/-- `MeasureSample` from src/src/lib.rs lines 100-104.  The exclusive mutable
borrow of the parent region is modelled by passing the region through the
operations explicitly. -/
structure MeasureSample where
  start_time : Nat
  end_time : Nat
deriving DecidableEq

/-- `MeasureSample::new`: captures the current timestamp as `start_time`;
`end_time` starts at 0 ("unset"). -/
def MeasureSample.new (now : Nat) : MeasureSample :=
  { start_time := now, end_time := 0 }

/-- `MeasureRegion::get_sample`: builds `MeasureSample::new(self)`; no field of
the region is written, so the region comes back unchanged beside the sample. -/
def MeasureRegion.get_sample (r : MeasureRegion) (now : Nat) : MeasureSample × MeasureRegion :=
  (MeasureSample.new now, r)

/-- `MeasureSample::get_value`: `end_time - start_time` (`u64`; `none` models
the underflow panic when `end_time < start_time`). -/
def MeasureSample.get_value (s : MeasureSample) : Option Nat :=
  if s.start_time ≤ s.end_time then some (s.end_time - s.start_time) else none

/-- `impl Drop for MeasureSample` (src/src/lib.rs lines 155-163): on release —
Rust runs `drop` exactly once per value, on every exit path — if `end_time` is
still unset (0) it is set to the current timestamp, then the sample's value is
folded into the parent region through `record_sample`. -/
def MeasureSample.drop (s : MeasureSample) (now : Nat) (r : MeasureRegion) :
    Option MeasureRegion :=
  let s2 := if s.end_time = 0 then { s with end_time := now } else s
  s2.get_value.bind (fun v => r.record_sample v)

/-- The region state after recording a list of completed sample durations, one
`record_sample` per completed sample. -/
def recordAll (r : MeasureRegion) : List Nat → Option MeasureRegion
  | [] => some r
  | d :: ds => (r.record_sample d).bind (fun r2 => recordAll r2 ds)

theorem record_sample_some (r : MeasureRegion) (d : Nat) (r' : MeasureRegion)
    (h : r.record_sample d = some r') :
    r'.num_samples = r.num_samples + 1 ∧ r'.sum_samples = r.sum_samples + d ∧
      r'.region_name = r.region_name ∧ r'.dump_on_drop = r.dump_on_drop := by
  unfold MeasureRegion.record_sample at h
  split at h
  · cases h
    exact ⟨rfl, rfl, rfl, rfl⟩
  · cases h

theorem recordAll_counts (ds : List Nat) : ∀ r r' : MeasureRegion,
    recordAll r ds = some r' →
      r'.num_samples = r.num_samples + ds.length ∧
      r'.sum_samples = r.sum_samples + ds.sum := by
  induction ds with
  | nil =>
    intro r r' h
    cases h
    simp
  | cons d ds ih =>
    intro r r' h
    unfold recordAll at h
    cases hc : r.record_sample d with
    | none => rw [hc] at h; cases h
    | some r2 =>
      rw [hc] at h
      obtain ⟨h1, h2, -, -⟩ := record_sample_some r d r2 hc
      obtain ⟨h3, h4⟩ := ih r2 r' h
      constructor
      · rw [h3, h1]; simp; omega
      · rw [h4, h2]; simp [List.sum_cons]; omega

/-- C4: for a region into which exactly the completed samples of durations
`ds = [d1, ..., dN]` have been recorded, `N ≥ 1`, `get_total_time` returns
`d1 + ... + dN` and `get_average_sample` returns that sum divided by `N`. -/
theorem region_total_and_average (ds : List Nat) (r' : MeasureRegion)
    (h : recordAll MeasureRegion.new ds = some r') (hn : 1 ≤ ds.length) :
    r'.get_total_time = ds.sum ∧
      r'.get_average_sample = F.finite ((ds.sum : ℚ) / (ds.length : ℚ)) := by
  obtain ⟨hc, hs⟩ := recordAll_counts ds _ _ h
  have hc0 : r'.num_samples = ds.length := by
    simpa [MeasureRegion.new] using hc
  have hs0 : r'.sum_samples = ds.sum := by
    simpa [MeasureRegion.new] using hs
  refine ⟨by simpa [MeasureRegion.get_total_time] using hs0, ?_⟩
  unfold MeasureRegion.get_average_sample F.div
  rw [hc0, hs0, if_neg (by exact_mod_cast (by omega : ¬ ds.length = 0))]

theorem region_total_and_average_witness :
    recordAll MeasureRegion.new [5, 7] =
        some { region_name := "default_name", dump_on_drop := false,
               num_samples := 2, sum_samples := 12 } ∧
      1 ≤ ([5, 7] : List Nat).length ∧
      (MeasureRegion.get_total_time
          { region_name := "default_name", dump_on_drop := false,
            num_samples := 2, sum_samples := 12 } = ([5, 7] : List Nat).sum ∧
        MeasureRegion.get_average_sample
          { region_name := "default_name", dump_on_drop := false,
            num_samples := 2, sum_samples := 12 } =
          F.finite ((([5, 7] : List Nat).sum : ℚ) / (([5, 7] : List Nat).length : ℚ))) :=
  ⟨by decide, by decide,
    region_total_and_average [5, 7] _ (by decide) (by decide)⟩

/-- C5: completing a sample — the `Drop` implementation, which the language
runs exactly once per sample, on every exit path (normal scope exit or early
return) — folds its duration into the owning region exactly once: whenever the
drop completes it increments `num_samples` by exactly 1.  This holds equally
when `end_time` was already set before the drop (the `end_time == 0` guard then
keeps the stored end timestamp rather than re-reading the counter), so an early
completion followed by scope exit still records a single sample. -/
theorem sample_recorded_exactly_once (s : MeasureSample) (now : Nat)
    (r r' : MeasureRegion) (h : s.drop now r = some r') :
    r'.num_samples = r.num_samples + 1 := by
  simp only [MeasureSample.drop] at h
  cases hv : (if s.end_time = 0 then { s with end_time := now } else s).get_value with
  | none => simp [hv] at h
  | some v =>
    simp only [hv, Option.bind_some] at h
    exact (record_sample_some r v r' h).1

theorem sample_recorded_exactly_once_witness :
    MeasureSample.drop { start_time := 10, end_time := 0 } 25 MeasureRegion.new =
        some { region_name := "default_name", dump_on_drop := false,
               num_samples := 1, sum_samples := 15 } ∧
      (MeasureRegion.mk "default_name" false 1 15).num_samples =
        MeasureRegion.new.num_samples + 1 :=
  ⟨by decide,
    sample_recorded_exactly_once { start_time := 10, end_time := 0 } 25
      MeasureRegion.new _ (by decide)⟩

/-- C6: a region with zero completed samples (any region reachable from a
freshly constructed one by recording samples, with `num_samples = 0`) has
`get_average_sample = NaN`: the 0/0 of the `f32` division propagates silently
as not-a-number, not as an error or halt. -/
theorem average_nan_on_zero_samples (r0 : MeasureRegion) (ds : List Nat)
    (r : MeasureRegion) (h0n : r0.num_samples = 0) (h0s : r0.sum_samples = 0)
    (h : recordAll r0 ds = some r) (hz : r.num_samples = 0) :
    r.get_average_sample = F.nan := by
  obtain ⟨hc, hs⟩ := recordAll_counts ds _ _ h
  have hsum : ds.sum = 0 := by
    have hlen : ds.length = 0 := by omega
    cases ds with
    | nil => rfl
    | cons d ds => simp at hlen
  have hs0 : r.sum_samples = 0 := by omega
  unfold MeasureRegion.get_average_sample F.div
  rw [hz, hs0]
  simp

theorem average_nan_on_zero_samples_witness :
    MeasureRegion.new.num_samples = 0 ∧ MeasureRegion.new.sum_samples = 0 ∧
      recordAll MeasureRegion.new [] = some MeasureRegion.new ∧
      MeasureRegion.new.num_samples = 0 ∧
      MeasureRegion.new.get_average_sample = F.nan :=
  ⟨by decide, by decide, by decide, by decide,
    average_nan_on_zero_samples MeasureRegion.new [] MeasureRegion.new
      (by decide) (by decide) (by decide) (by decide)⟩

/-- C7: no public operation of a region ever decreases `num_samples` or
`sum_samples`: `get_sample` hands the region back with every field untouched,
`get_average_sample` and `get_total_time` are pure reads (functions of the
region, returning no new region), and a completed sample's `record_sample`
only moves the counters up (`+1`, `+duration`). -/
theorem region_counters_monotone (r : MeasureRegion) (now d : Nat)
    (r' : MeasureRegion) (h : r.record_sample d = some r') :
    (r.get_sample now).2 = r ∧
      r.num_samples ≤ r'.num_samples ∧ r.sum_samples ≤ r'.sum_samples := by
  obtain ⟨hc, hs, -, -⟩ := record_sample_some r d r' h
  exact ⟨rfl, by omega, by omega⟩

theorem region_counters_monotone_witness :
    MeasureRegion.new.record_sample 4 =
        some { region_name := "default_name", dump_on_drop := false,
               num_samples := 1, sum_samples := 4 } ∧
      ((MeasureRegion.new.get_sample 3).2 = MeasureRegion.new ∧
        MeasureRegion.new.num_samples ≤ (MeasureRegion.mk "default_name" false 1 4).num_samples ∧
        MeasureRegion.new.sum_samples ≤ (MeasureRegion.mk "default_name" false 1 4).sum_samples) :=
  ⟨by decide, region_counters_monotone MeasureRegion.new 3 4 _ (by decide)⟩

/-- Zero-padding to the three fractional digits kept by the `{:.3}` format. -/
def pad3 (n : Nat) : String :=
  if n < 10 then "00" ++ Nat.repr n
  else if n < 100 then "0" ++ Nat.repr n
  else Nat.repr n

/-- Rounding a nonnegative rational to the nearest integer, ties to even — the
rounding Rust applies to the scaled value in fixed-precision float output. -/
def roundHalfEvenNonneg (x : ℚ) : Nat :=
  let n := x.num.toNat
  let d := x.den
  let q := n / d
  let rem := n % d
  if 2 * rem < d then q
  else if d < 2 * rem then q + 1
  else if q % 2 = 0 then q else q + 1

/-- The `{:.3}` fixed-point rendering of a nonnegative value: scale by 1000,
round to integer, print with exactly three digits after the point. -/
def fixed3Nonneg (v : ℚ) : String :=
  let n := roundHalfEvenNonneg (v * 1000)
  Nat.repr (n / 1000) ++ "." ++ pad3 (n % 1000)

/-- The `{:.3}` fixed-point rendering, sign included. -/
def fixed3 (v : ℚ) : String :=
  if v < 0 then "-" ++ fixed3Nonneg (-v) else fixed3Nonneg v

/-- `ValueFormatter::format_value` for `CriterionCycleCounter`
(src/src/lib.rs lines 245-247): `format!("{:.3} clocks", value)`, the `f64`
value modelled exactly as a rational. -/
def format_value (value : ℚ) : String :=
  fixed3 value ++ " clocks"

/-- `criterion::Throughput`, the two variants matched by the formatter; the
payloads are `u64` byte and element counts. -/
inductive Throughput where
  | Bytes : Nat → Throughput
  | Elements : Nat → Throughput
deriving DecidableEq

/-- The fractional digits of `rem / d` in base 10, most significant first,
stopping when the remainder is exhausted (`fuel` bounds the recursion). -/
def fracDigits : Nat → Nat → Nat → String
  | _, _, 0 => ""
  | rem, d, fuel + 1 =>
    let digit := rem * 10 / d
    let rem2 := rem * 10 % d
    Nat.repr digit ++ (if rem2 = 0 then "" else fracDigits rem2 d fuel)

/-- Rust's default `Display` rendering of a nonnegative float value with
terminating decimal expansion: integers print with no decimal point (`512.0`
prints as "512"), other values print their fractional digits. -/
def displayNonneg (q : ℚ) : String :=
  let n := q.num.toNat
  let d := q.den
  if n % d = 0 then Nat.repr (n / d)
  else Nat.repr (n / d) ++ "." ++ fracDigits (n % d) d 64

/-- Rust's default `Display` rendering, sign included. -/
def display (q : ℚ) : String :=
  if q < 0 then "-" ++ displayNonneg (-q) else displayNonneg q

/-- `ValueFormatter::format_throughput` for `CriterionCycleCounter`
(src/src/lib.rs lines 249-260): `Throughput::Bytes(b)` renders
`b as f64 / value` followed by " b/c"; `Throughput::Elements(e)` renders
`e as f64 / value` followed by " elem/c". -/
def format_throughput : Throughput → ℚ → String
  | Throughput.Bytes b, value => display ((b : ℚ) / value) ++ " b/c"
  | Throughput.Elements e, value => display ((e : ℚ) / value) ++ " elem/c"

/-- C10: the value formatter renders 1234.5 (= 2469/2) as "1234.500 clocks",
and the throughput formatter renders a byte throughput of 1024 bytes at value
2.0 as "512 b/c". -/
theorem formatter_examples :
    format_value ((2469 : ℚ) / 2) = "1234.500 clocks" ∧
      format_throughput (Throughput.Bytes 1024) 2 = "512 b/c" := by
  constructor
  · have hneg : ¬ ((2469 : ℚ) / 2 < 0) := by norm_num
    have hx : (2469 : ℚ) / 2 * 1000 = 1234500 := by norm_num
    rw [format_value, fixed3, if_neg hneg]
    simp only [fixed3Nonneg]
    rw [hx]
    decide
  · have hneg : ¬ (((1024 : ℕ) : ℚ) / 2 < 0) := by norm_num
    have hx : ((1024 : ℕ) : ℚ) / 2 = 512 := by norm_num
    show display (((1024 : ℕ) : ℚ) / 2) ++ " b/c" = "512 b/c"
    rw [hx, display, if_neg (by norm_num : ¬ ((512 : ℚ) < 0))]
    decide
